import Mathlib

set_option autoImplicit false

/-!
Shallow embedding of the filesystem-assistant application (src/main.py,
src/backend/host/config.py, src/backend/tools/tool_local_fs.py) and proofs
about the claims of its specification.

Conventions of the embedding:
* JSON-serialisable Python data is modelled by `JValue`.
* A Python exception is modelled by the `Except.error` constructor carrying
  the description string of the exception; code without a try/except block
  propagates such an error outward, exactly like Python unwinding.
* The OpenAI chat completion call of `Assistant.handle` is modelled by an
  oracle function from the step index and the current history to the model
  message, so that theorems can quantify over every model behavior.
* An MCP backend session is modelled by its advertised tool names together
  with a `callTool` function that may raise.
-/

namespace FSAssistant

/-- JSON-like values: the pure-Python data that `json.dumps` accepts and that
tool results are converted into in `Assistant.handle`. -/
inductive JValue where
  | jnull : JValue
  | jbool (b : Bool) : JValue
  | jnum (n : Int) : JValue
  | jstr (s : String) : JValue
  | jarr (elems : List JValue) : JValue
  | jobj (fields : List (String × JValue)) : JValue

/-- A parsed Python dict of keyword arguments, as produced by
`json.loads(call.function.arguments)`: an insertion-ordered key/value list. -/
abbrev Args := List (String × JValue)

/-- First value stored under key `k` (Python `d[k]` / `d.get(k)`). -/
def lookupArg (a : Args) (k : String) : Option JValue :=
  match a with
  | [] => none
  | (k2, v) :: rest => if k2 = k then some v else lookupArg rest k

/-- Remove every binding of key `k` (Python `d.pop(k, None)` on a dict,
whose keys are unique). -/
def eraseArg (a : Args) (k : String) : Args :=
  match a with
  | [] => []
  | (k2, v) :: rest => if k2 = k then eraseArg rest k else (k2, v) :: eraseArg rest k

/-- Modelled from the spec: the alias-normalization step of
`Assistant.handle` is elided in src/main.py (only the placeholder comment
`# … your alias normalization …` stands at src/main.py:269), so this
definition follows the words of the spec.  One alias is coalesced into one
canonical parameter name: if the alias key is present it is removed, and its
value is stored under the canonical key only when the canonical key itself
is absent (so an explicit canonical value wins over the alias). -/
def coalesce (canonKey aliasKey : String) (a : Args) : Args :=
  match lookupArg a aliasKey with
  | none => a
  | some v =>
    let a2 := eraseArg a aliasKey
    match lookupArg a2 canonKey with
    | some _ => a2
    | none => a2 ++ [(canonKey, v)]

/-- Modelled from the spec: normalization of known argument-name aliases
into canonical parameter names, applied to the parsed arguments before an
operation request is dispatched.  Per the spec, a caller-supplied `folder`,
`folder_path`, or `path` alias is coalesced into the canonical `directory`
parameter if `directory` itself is absent, and a `fileType` alias is
coalesced into `file_type`. -/
def normalizeArgs (a : Args) : Args :=
  coalesce "file_type" "fileType"
    (coalesce "directory" "path"
      (coalesce "directory" "folder_path"
        (coalesce "directory" "folder" a)))

/-- One operation request of a model message (an OpenAI tool call), with its
correlation id, the requested operation name, and its parsed arguments.
`json.loads(call.function.arguments or "\x7b\x7d")` is assumed to succeed and
its result is carried here already parsed. -/
structure ToolCall where
  id : String
  name : String
  args : Args

/-- A chat-completion message as `Assistant.handle` reads it: its text
content (`""` models Python-falsy `None`/empty content), the `tool_calls`
list (`[]` models `None`), and the legacy singular `tool_call` attribute. -/
structure ModelMsg where
  content : String
  toolCalls : List ToolCall
  toolCall : Option ToolCall

/-- The operation requests of a message as `Assistant.handle` collects them:
`calls = getattr(msg, "tool_calls", None) or []` and then, if the singular
`msg.tool_call` is set, `calls = [msg.tool_call]` overrides the list. -/
def effectiveCalls (msg : ModelMsg) : List ToolCall :=
  match msg.toolCall with
  | some c => [c]
  | none => msg.toolCalls

/-- One turn of the conversation history `Assistant.history`. -/
inductive Turn where
  | system (content : String) : Turn
  | user (content : String) : Turn
  | assistant (msg : ModelMsg) : Turn
  | tool (toolCallId : String) (resultData : JValue) : Turn

/-- An MCP backend client session: the tool names its server advertises via
`list_tools()`, and `call_tool`, which either returns a result (already
converted to pure data, as the `model_dump`/`dict`/`asdict` cascade of
`Assistant.handle` does) or raises an exception with a description. -/
structure Session where
  tools : List String
  callTool : String → Args → Except String JValue

/-- `Assistant._find_session`: walk the registered sessions in insertion
order and return the first one whose server advertises `toolName`;
`none` when no session exposes it. -/
def findSession (sessions : List (String × Session)) (toolName : String) : Option Session :=
  match sessions with
  | [] => none
  | (_, s) :: rest => if toolName ∈ s.tools then some s else findSession rest toolName

/-- The payload `Assistant.handle` serialises when no session exposes the
requested operation name. -/
def notFoundPayload (toolName : String) : JValue :=
  JValue.jobj [("error", JValue.jstr ("tool \x27" ++ toolName ++ "\x27 not found"))]

/-- The body of the per-call part of the tool loop of `Assistant.handle`:
normalize the arguments, look up the owning session, and either produce the
not-found payload, or invoke the backend.  The backend invocation
`sess.call_tool(...)` stands outside any try/except in the source, so a
backend exception propagates as `Except.error`. -/
def processCall (sessions : List (String × Session)) (call : ToolCall) : Except String Turn :=
  match findSession sessions call.name with
  | none => Except.ok (Turn.tool call.id (notFoundPayload call.name))
  | some sess =>
    match sess.callTool call.name (normalizeArgs call.args) with
    | Except.ok v => Except.ok (Turn.tool call.id v)
    | Except.error e => Except.error e

/-- Process the batch of calls of one loop step in order, appending one tool
turn per request to the history; the first uncaught backend exception aborts
the batch. -/
def runCalls (sessions : List (String × Session)) (calls : List ToolCall)
    (hist : List Turn) : Except String (List Turn) :=
  match calls with
  | [] => Except.ok hist
  | c :: rest =>
    match processCall sessions c with
    | Except.error e => Except.error e
    | Except.ok t => runCalls sessions rest (hist ++ [t])

namespace Assistant

/-- `Assistant.MAX_STEPS` (src/main.py:128). -/
def MAX_STEPS : Nat := 10

end Assistant

/-- The fixed fallback message returned after the loop exhausts its steps. -/
def fallbackMessage : String := "⚠️  Sorry, I couldn’t complete that request."

/-- The initial `Assistant.history`: the fixed system turn. -/
def initialHistory : List Turn :=
  [Turn.system ("You are Filesystem-GPT. Always use the provided tools " ++
    "for file operations instead of guessing.")]

/-- The `for step in range(MAX_STEPS)` loop of `Assistant.handle`, with
`remaining` loop iterations left and `stepIdx` the current value of `step`.
Each iteration queries the model oracle, appends the assistant turn, and
either processes the batch of tool calls and continues, returns non-empty
content as the final answer, or (empty content, no calls) continues.
When the iterations are exhausted the fallback message is returned. -/
def handleSteps (oracle : Nat → List Turn → ModelMsg)
    (sessions : List (String × Session)) :
    Nat → Nat → List Turn → Except String (String × List Turn)
  | 0, _, hist => Except.ok (fallbackMessage, hist)
  | r + 1, stepIdx, hist =>
    let msg := oracle stepIdx hist
    let hist2 := hist ++ [Turn.assistant msg]
    let calls := effectiveCalls msg
    if calls.isEmpty then
      if msg.content = "" then handleSteps oracle sessions r (stepIdx + 1) hist2
      else Except.ok (msg.content, hist2)
    else
      match runCalls sessions calls hist2 with
      | Except.error e => Except.error e
      | Except.ok hist3 => handleSteps oracle sessions r (stepIdx + 1) hist3

/-- `Assistant.handle(user_prompt)`: append the user turn and run the loop.
The returned pair carries the final answer together with the final history. -/
def handle (oracle : Nat → List Turn → ModelMsg)
    (sessions : List (String × Session)) (hist0 : List Turn)
    (userPrompt : String) : Except String (String × List Turn) :=
  handleSteps oracle sessions Assistant.MAX_STEPS 0 (hist0 ++ [Turn.user userPrompt])

/-- The number of model round-trips (chat-completion calls) a run of
`handleSteps` performs; it mirrors the control flow of `handleSteps`. -/
def roundTrips (oracle : Nat → List Turn → ModelMsg)
    (sessions : List (String × Session)) : Nat → Nat → List Turn → Nat
  | 0, _, _ => 0
  | r + 1, stepIdx, hist =>
    let msg := oracle stepIdx hist
    let hist2 := hist ++ [Turn.assistant msg]
    let calls := effectiveCalls msg
    if calls.isEmpty then
      if msg.content = "" then 1 + roundTrips oracle sessions r (stepIdx + 1) hist2
      else 1
    else
      match runCalls sessions calls hist2 with
      | Except.error _ => 1
      | Except.ok hist3 => 1 + roundTrips oracle sessions r (stepIdx + 1) hist3

/-!
The tool catalog: `start_servers` (src/main.py:53-122) collects one raw
schema per advertised tool of every backend, in provider enumeration order,
and `Assistant.wrap_tool_schemas` (src/main.py:211-240) wraps each raw
schema for the chat-completions API.
-/

/-- A `Tool` instance as an MCP server advertises it: name, optional
description, and its JSON input schema. -/
structure ToolSpec where
  name : String
  description : Option String
  inputSchema : JValue

/-- A raw schema dict as `start_servers` builds it: `inputSchema` renamed
to `parameters`, `name` injected, and `description` defaulted to `""`. -/
structure RawSchema where
  name : String
  description : String
  parameters : JValue

/-- The per-tool schema construction of `start_servers` (src/main.py:96-109). -/
def toRawSchema (t : ToolSpec) : RawSchema :=
  { name := t.name
    description := t.description.getD ""
    parameters := t.inputSchema }

/-- The catalog aggregation of `start_servers`: every backend's tool list is
appended to one flat `tool_schemas` list, in provider enumeration order,
with no deduplication of names. -/
def collectToolSchemas (backends : List (List ToolSpec)) : List RawSchema :=
  (backends.map (fun ts => ts.map toRawSchema)).flatten

/-- One entry of the `tools` array handed to the chat-completions API. -/
structure WrappedTool where
  type : String
  fname : String
  fdescription : String
  fparameters : JValue

/-- `Assistant.wrap_tool_schemas`: wrap each raw schema as a
`\x7b"type": "function", "function": \x7b...\x7d\x7d` entry. -/
def wrap_tool_schemas (rawSchemas : List RawSchema) : List WrappedTool :=
  rawSchemas.map (fun s =>
    { type := "function"
      fname := s.name
      fdescription := s.description
      fparameters := s.parameters })

/-- The outcome of spawning one backend process and handshaking with it:
either the live session together with its advertised tools, or the
exception the spawn/handshake/list step raised. -/
abbrev SpawnOutcome := Except String (Session × List ToolSpec)

/-- `start_servers` (src/main.py:53-122): iterate `SERVER_CMDS` in order,
spawning each backend.  The whole loop body stands inside one try/except
whose handler closes the exit stack and re-raises, so the first failing
backend aborts the whole startup with that exception; otherwise the session
map (insertion order) and the flat schema list are returned. -/
def start_servers : List (String × SpawnOutcome) →
    Except String (List (String × Session) × List RawSchema)
  | [] => Except.ok ([], [])
  | (_, Except.error e) :: _ => Except.error e
  | (tag, Except.ok (sess, ts)) :: rest =>
    match start_servers rest with
    | Except.error e => Except.error e
    | Except.ok (sessions, schemas) =>
      Except.ok ((tag, sess) :: sessions, ts.map toRawSchema ++ schemas)

/-!
Startup configuration: `Settings` (src/backend/host/config.py:26-41) and the
Synology availability probe `_synology_works` (src/main.py:29-48) that
decides whether the `"syno"` entry joins `SERVER_CMDS`.
-/

/-- The `Settings` object (src/backend/host/config.py): its declared fields.
`model_config` uses `extra="ignore"`, so no undeclared attribute ever
appears on an instance. -/
structure Settings where
  openai_api_key : String
  google_client_secret_json : String
  postgres_url : String
  nas_host : Option String
  nas_user : Option String
  nas_pass : Option String
  nas_port : Option String

/-- Python attribute access `settings.nas_secure`: the `Settings` class
declares no field or property named `nas_secure` and ignores extra input,
so this access raises `AttributeError` on every instance. -/
def Settings.getattrNasSecure (_ : Settings) : Except String Bool :=
  Except.error "AttributeError: \x27Settings\x27 object has no attribute \x27nas_secure\x27"

/-- Python `int(x)` on an optional string: `int(None)` raises `TypeError`,
a non-numeric string raises `ValueError`. -/
def pyInt (x : Option String) : Except String Int :=
  match x with
  | none => Except.error "TypeError: int() argument cannot be None"
  | some s =>
    match s.toInt? with
    | some n => Except.ok n
    | none => Except.error "ValueError: invalid literal for int()"

/-- Python truthiness of an optional string (`None` and `""` are falsy). -/
def pyTruthy (x : Option String) : Bool :=
  match x with
  | none => false
  | some s => !s.isEmpty

/-- The try block of `_synology_works` (src/main.py:30-40).  The
`FileStation(...)` constructor arguments are evaluated left to right:
`settings.nas_host`, `int(settings.nas_port)`, `settings.nas_user`,
`settings.nas_pass`, and `secure=settings.nas_secure`; then the client is
constructed and `fs.get_info()` is called.  Construction and `get_info` are
abstracted by the `mkFileStation`/`getInfo` parameters over an abstract
client type `FS`. -/
def synologyWorksTry {FS : Type} (s : Settings)
    (mkFileStation : Option String → Int → Option String → Option String → Bool →
      Except String FS)
    (getInfo : FS → Except String Unit) : Except String Bool :=
  match pyInt s.nas_port with
  | Except.error e => Except.error e
  | Except.ok port =>
    match s.getattrNasSecure with
    | Except.error e => Except.error e
    | Except.ok secure =>
      match mkFileStation s.nas_host port s.nas_user s.nas_pass secure with
      | Except.error e => Except.error e
      | Except.ok fs =>
        match getInfo fs with
        | Except.error e => Except.error e
        | Except.ok _ => Except.ok true

/-- `_synology_works` (src/main.py:29-42): run the try block; any exception
is swallowed and turned into `False`. -/
def synology_works {FS : Type} (s : Settings)
    (mkFileStation : Option String → Int → Option String → Option String → Bool →
      Except String FS)
    (getInfo : FS → Except String Unit) : Bool :=
  match synologyWorksTry s mkFileStation getInfo with
  | Except.ok b => b
  | Except.error _ => false

/-- The tags of `SERVER_CMDS` after module initialisation (src/main.py:22-48):
the three fixed backends, plus `"syno"` exactly when
`settings.nas_host and _synology_works()` is truthy. -/
def serverCmdTags {FS : Type} (s : Settings)
    (mkFileStation : Option String → Int → Option String → Option String → Bool →
      Except String FS)
    (getInfo : FS → Except String Unit) : List String :=
  ["local", "gdrive", "icloud"] ++
    (if pyTruthy s.nas_host && synology_works s mkFileStation getInfo
     then ["syno"] else [])

/-!
The local-filesystem backend path handling
(src/backend/tools/tool_local_fs.py:6-11).  A POSIX path string is modelled
by whether it begins with `~`, whether it is absolute, and its component
list; `Path.resolve()` is modelled by `..`/`.` elimination (symlink
resolution is outside the model).
-/

/-- A path string argument as the local-fs tools receive it. -/
structure PathStr where
  tilde : Bool
  absolute : Bool
  comps : List String

/-- `os.path.expanduser`: a leading `~` is replaced by the home directory,
yielding an absolute path; other paths are unchanged. -/
def expanduser (home : List String) (p : PathStr) : PathStr :=
  if p.tilde then { tilde := false, absolute := true, comps := home ++ p.comps }
  else p

/-- Component normalisation of `Path.resolve()`: `.` is dropped and `..`
removes the previous component. -/
def resolveComps (acc : List String) : List String → List String
  | [] => acc
  | c :: rest =>
    if c = "." then resolveComps acc rest
    else if c = ".." then resolveComps acc.dropLast rest
    else resolveComps (acc ++ [c]) rest

/-- `_abs` (src/backend/tools/tool_local_fs.py:9-11): expand the user
prefix, then resolve the path itself when absolute and `ROOT / p` (with
`ROOT = Path.home()`) when relative. -/
def abspath (home : List String) (p : PathStr) : List String :=
  let q := expanduser home p
  if q.absolute then resolveComps [] q.comps
  else resolveComps [] (home ++ q.comps)

/-- `delete_file` (src/backend/tools/tool_local_fs.py:65-70) removes exactly
the path `_abs(path)` denotes; this is the path it acts on. -/
def delete_file_target (home : List String) (p : PathStr) : List String :=
  abspath home p

/-- `move_file` (src/backend/tools/tool_local_fs.py:55-58) moves
`_abs(src)` to `_abs(dest)`; these are the paths it acts on. -/
def move_file_targets (home : List String) (src dest : PathStr) :
    List String × List String :=
  (abspath home src, abspath home dest)

/-!
Concrete fixtures: small sessions, tool calls, messages and model oracles
used to evaluate the embedded program on explicit inputs.
-/

/-- A session exposing one tool named `list_files`. -/
def sessLF : Session := ⟨["list_files"], fun _ _ => Except.ok JValue.jnull⟩

/-- A session whose backend invocation always raises. -/
def sessBoom : Session := ⟨["boom_op"], fun _ _ => Except.error "backend exploded"⟩

/-- A session with one raising and one working tool. -/
def sessTwo : Session :=
  ⟨["boom2_op", "fine_op"], fun nm _ =>
    if nm = "boom2_op" then Except.error "boom2 failed"
    else Except.ok (JValue.jstr "ok")⟩

/-- A session with two working tools, echoing the tool name. -/
def sessGood : Session := ⟨["alpha_op", "beta_op"], fun nm _ => Except.ok (JValue.jstr nm)⟩

def callBoom : ToolCall := ⟨"call_9", "boom_op", []⟩

def callB2 : ToolCall := ⟨"id_a", "boom2_op", []⟩

def callF2 : ToolCall := ⟨"id_b", "fine_op", []⟩

def callA : ToolCall := ⟨"id_1", "alpha_op", []⟩

def callB : ToolCall := ⟨"id_2", "beta_op", []⟩

def callUnknown : ToolCall := ⟨"call_1", "mystery_op", []⟩

def msgFinal : ModelMsg := ⟨"done", [], none⟩

def msgCallUnknown : ModelMsg := ⟨"", [callUnknown], none⟩

def msgBoom : ModelMsg := ⟨"", [callBoom], none⟩

def msgGood : ModelMsg := ⟨"", [callA, callB], none⟩

/-- A model that immediately answers with text and no operation requests. -/
def oracleFinal : Nat → List Turn → ModelMsg := fun _ _ => msgFinal

/-- A model that always requests an operation no backend exposes. -/
def oracleUnknown : Nat → List Turn → ModelMsg := fun _ _ => msgCallUnknown

/-- A model that always requests the raising operation. -/
def oracleBoom : Nat → List Turn → ModelMsg := fun _ _ => msgBoom

/-- A model that requests two working operations in one step. -/
def oracleGood : Nat → List Turn → ModelMsg := fun _ _ => msgGood

/-- The local backend's `list_files` tool advertisement. -/
def toolLF1 : ToolSpec :=
  ⟨"list_files", some "List directory contents. If file_type is files return only files.",
    JValue.jobj []⟩

/-- The Google Drive backend's `list_files` tool advertisement. -/
def toolLF2 : ToolSpec :=
  ⟨"list_files", some "List name,id,mimeType in a folder.", JValue.jobj []⟩

/-!
Lemmas about argument dictionaries and alias normalization.
-/

theorem lookupArg_append_none {a : Args} {k : String} (b : Args)
    (h : lookupArg a k = none) : lookupArg (a ++ b) k = lookupArg b k := by
  induction a with
  | nil => simp
  | cons p rest ih =>
    obtain ⟨k2, v⟩ := p
    by_cases hk : k2 = k
    · simp [lookupArg, hk] at h
    · simp only [lookupArg, hk, if_false, List.cons_append] at h ⊢
      exact ih h

theorem lookupArg_append_some {a : Args} {k : String} {v : JValue} (b : Args)
    (h : lookupArg a k = some v) : lookupArg (a ++ b) k = some v := by
  induction a with
  | nil => simp [lookupArg] at h
  | cons p rest ih =>
    obtain ⟨k2, w⟩ := p
    by_cases hk : k2 = k
    · simp only [lookupArg, hk, if_true, List.cons_append] at h ⊢
      exact h
    · simp only [lookupArg, hk, if_false, List.cons_append] at h ⊢
      exact ih h

theorem lookupArg_eraseArg_self (a : Args) (k : String) :
    lookupArg (eraseArg a k) k = none := by
  induction a with
  | nil => simp [eraseArg, lookupArg]
  | cons p rest ih =>
    obtain ⟨k2, v⟩ := p
    by_cases hk : k2 = k
    · simp only [eraseArg, hk, if_true]
      exact ih
    · simp only [eraseArg, hk, if_false, lookupArg]
      exact ih

theorem lookupArg_eraseArg_ne (a : Args) {j k : String} (h : j ≠ k) :
    lookupArg (eraseArg a k) j = lookupArg a j := by
  induction a with
  | nil => simp [eraseArg]
  | cons p rest ih =>
    obtain ⟨k2, v⟩ := p
    by_cases hk : k2 = k
    · have hj : k2 ≠ j := fun hkj => h (hkj.symm.trans hk)
      simp only [eraseArg, hk, if_true, lookupArg, hj, if_false]
      have hj2 : ¬ (k = j) := fun hkj => h (hkj.symm)
      simp only [hk ▸ hj, if_false]
      exact ih
    · simp only [eraseArg, hk, if_false, lookupArg]
      by_cases hj : k2 = j
      · simp [hj]
      · simp only [hj, if_false]
        exact ih

theorem coalesce_eq_of_none {a : Args} {canonKey aliasKey : String}
    (ha : lookupArg a aliasKey = none) : coalesce canonKey aliasKey a = a := by
  simp [coalesce, ha]

theorem coalesce_eq_of_some_some {a : Args} {canonKey aliasKey : String} {v w : JValue}
    (ha : lookupArg a aliasKey = some v)
    (hc : lookupArg (eraseArg a aliasKey) canonKey = some w) :
    coalesce canonKey aliasKey a = eraseArg a aliasKey := by
  simp [coalesce, ha, hc]

theorem coalesce_eq_of_some_none {a : Args} {canonKey aliasKey : String} {v : JValue}
    (ha : lookupArg a aliasKey = some v)
    (hc : lookupArg (eraseArg a aliasKey) canonKey = none) :
    coalesce canonKey aliasKey a = eraseArg a aliasKey ++ [(canonKey, v)] := by
  simp [coalesce, ha, hc]

theorem coalesce_of_absent {a : Args} {canonKey aliasKey : String}
    (h : lookupArg a aliasKey = none) : coalesce canonKey aliasKey a = a :=
  coalesce_eq_of_none h

theorem lookupArg_coalesce_of_absent {a : Args} {canonKey aliasKey k : String}
    (hk : k ≠ canonKey) (h : lookupArg a k = none) :
    lookupArg (coalesce canonKey aliasKey a) k = none := by
  cases ha : lookupArg a aliasKey with
  | none => rw [coalesce_eq_of_none ha]; exact h
  | some v =>
    have h2 : lookupArg (eraseArg a aliasKey) k = none := by
      by_cases hka : k = aliasKey
      · exact hka ▸ lookupArg_eraseArg_self a aliasKey
      · exact (lookupArg_eraseArg_ne a hka).trans h
    cases hc : lookupArg (eraseArg a aliasKey) canonKey with
    | some w => rw [coalesce_eq_of_some_some ha hc]; exact h2
    | none =>
      rw [coalesce_eq_of_some_none ha hc]
      have hk2 : ¬ (canonKey = k) := fun hh => hk hh.symm
      exact (lookupArg_append_none [(canonKey, v)] h2).trans (by simp [lookupArg, hk2])

theorem lookupArg_coalesce_alias {a : Args} {canonKey aliasKey : String}
    (h : aliasKey ≠ canonKey) :
    lookupArg (coalesce canonKey aliasKey a) aliasKey = none := by
  cases ha : lookupArg a aliasKey with
  | none => rw [coalesce_eq_of_none ha]; exact ha
  | some v =>
    have h2 : lookupArg (eraseArg a aliasKey) aliasKey = none :=
      lookupArg_eraseArg_self a aliasKey
    cases hc : lookupArg (eraseArg a aliasKey) canonKey with
    | some w => rw [coalesce_eq_of_some_some ha hc]; exact h2
    | none =>
      rw [coalesce_eq_of_some_none ha hc]
      have h3 : ¬ (canonKey = aliasKey) := fun hh => h hh.symm
      exact (lookupArg_append_none [(canonKey, v)] h2).trans (by simp [lookupArg, h3])

theorem lookupArg_coalesce_canon {a : Args} {canonKey aliasKey : String} {v : JValue}
    (h : aliasKey ≠ canonKey) (hv : lookupArg a canonKey = some v) :
    lookupArg (coalesce canonKey aliasKey a) canonKey = some v := by
  cases ha : lookupArg a aliasKey with
  | none => rw [coalesce_eq_of_none ha]; exact hv
  | some w =>
    have h2 : lookupArg (eraseArg a aliasKey) canonKey = some v := by
      have hne : (canonKey : String) ≠ aliasKey := fun hh => h hh.symm
      exact (lookupArg_eraseArg_ne a hne).trans hv
    rw [coalesce_eq_of_some_some ha h2]
    exact h2

theorem lookupArg_coalesce_promote {a : Args} {canonKey aliasKey : String} {v : JValue}
    (h : aliasKey ≠ canonKey) (ha : lookupArg a aliasKey = some v)
    (hc : lookupArg a canonKey = none) :
    lookupArg (coalesce canonKey aliasKey a) canonKey = some v := by
  have h2 : lookupArg (eraseArg a aliasKey) canonKey = none := by
    have hne : (canonKey : String) ≠ aliasKey := fun hh => h hh.symm
    exact (lookupArg_eraseArg_ne a hne).trans hc
  rw [coalesce_eq_of_some_none ha h2]
  exact (lookupArg_append_none [(canonKey, v)] h2).trans (by simp [lookupArg])

theorem lookupArg_coalesce_other {a : Args} {canonKey aliasKey k : String}
    (h1 : k ≠ canonKey) (h2 : k ≠ aliasKey) :
    lookupArg (coalesce canonKey aliasKey a) k = lookupArg a k := by
  cases ha : lookupArg a aliasKey with
  | none => rw [coalesce_eq_of_none ha]
  | some v =>
    have he : lookupArg (eraseArg a aliasKey) k = lookupArg a k :=
      lookupArg_eraseArg_ne a h2
    cases hc : lookupArg (eraseArg a aliasKey) canonKey with
    | some w => rw [coalesce_eq_of_some_some ha hc]; exact he
    | none =>
      rw [coalesce_eq_of_some_none ha hc]
      cases hk : lookupArg a k with
      | none =>
        have h3 : ¬ (canonKey = k) := fun hh => h1 hh.symm
        exact (lookupArg_append_none [(canonKey, v)] (he.trans hk)).trans
          (by simp [lookupArg, h3])
      | some u => exact lookupArg_append_some [(canonKey, v)] (he.trans hk)

/-- C3: alias normalization of operation-request arguments is deterministic
(it is a function) and idempotent; when the arguments contain both `folder`
and `directory` the `directory` value wins; when they contain only `folder`
the key is renamed to `directory`; and a `fileType` key is coalesced into
`file_type`.  (Settled against the spec-modelled `normalizeArgs`: the
normalization body is elided in src/main.py:269.) -/
theorem c3_alias_normalization (a : Args) :
    (∀ v, lookupArg a "directory" = some v →
      lookupArg (normalizeArgs a) "directory" = some v) ∧
    (∀ v, lookupArg a "directory" = none → lookupArg a "folder" = some v →
      lookupArg (normalizeArgs a) "directory" = some v) ∧
    lookupArg (normalizeArgs a) "folder" = none ∧
    (∀ v, lookupArg a "file_type" = none → lookupArg a "fileType" = some v →
      lookupArg (normalizeArgs a) "file_type" = some v) ∧
    normalizeArgs (normalizeArgs a) = normalizeArgs a := by
  have hfold1 : lookupArg (coalesce "directory" "folder" a) "folder" = none :=
    lookupArg_coalesce_alias (by decide)
  have hfold2 : lookupArg (coalesce "directory" "folder_path"
      (coalesce "directory" "folder" a)) "folder" = none :=
    lookupArg_coalesce_of_absent (by decide) hfold1
  have hfold3 : lookupArg (coalesce "directory" "path"
      (coalesce "directory" "folder_path" (coalesce "directory" "folder" a)))
      "folder" = none :=
    lookupArg_coalesce_of_absent (by decide) hfold2
  have hfold4 : lookupArg (normalizeArgs a) "folder" = none :=
    lookupArg_coalesce_of_absent (by decide) hfold3
  have hfp1 : lookupArg (coalesce "directory" "folder_path"
      (coalesce "directory" "folder" a)) "folder_path" = none :=
    lookupArg_coalesce_alias (by decide)
  have hfp2 : lookupArg (coalesce "directory" "path"
      (coalesce "directory" "folder_path" (coalesce "directory" "folder" a)))
      "folder_path" = none :=
    lookupArg_coalesce_of_absent (by decide) hfp1
  have hfp3 : lookupArg (normalizeArgs a) "folder_path" = none :=
    lookupArg_coalesce_of_absent (by decide) hfp2
  have hpath1 : lookupArg (coalesce "directory" "path"
      (coalesce "directory" "folder_path" (coalesce "directory" "folder" a)))
      "path" = none :=
    lookupArg_coalesce_alias (by decide)
  have hpath2 : lookupArg (normalizeArgs a) "path" = none :=
    lookupArg_coalesce_of_absent (by decide) hpath1
  have hfT : lookupArg (normalizeArgs a) "fileType" = none :=
    lookupArg_coalesce_alias (by decide)
  refine ⟨?_, ?_, hfold4, ?_, ?_⟩
  · intro v hv
    have h1 : lookupArg (coalesce "directory" "folder" a) "directory" = some v :=
      lookupArg_coalesce_canon (by decide) hv
    have h2 : lookupArg (coalesce "directory" "folder_path"
        (coalesce "directory" "folder" a)) "directory" = some v :=
      lookupArg_coalesce_canon (by decide) h1
    have h3 : lookupArg (coalesce "directory" "path"
        (coalesce "directory" "folder_path" (coalesce "directory" "folder" a)))
        "directory" = some v :=
      lookupArg_coalesce_canon (by decide) h2
    exact (lookupArg_coalesce_other (by decide) (by decide)).trans h3
  · intro v hdir hfold
    have h1 : lookupArg (coalesce "directory" "folder" a) "directory" = some v :=
      lookupArg_coalesce_promote (by decide) hfold hdir
    have h2 : lookupArg (coalesce "directory" "folder_path"
        (coalesce "directory" "folder" a)) "directory" = some v :=
      lookupArg_coalesce_canon (by decide) h1
    have h3 : lookupArg (coalesce "directory" "path"
        (coalesce "directory" "folder_path" (coalesce "directory" "folder" a)))
        "directory" = some v :=
      lookupArg_coalesce_canon (by decide) h2
    exact (lookupArg_coalesce_other (by decide) (by decide)).trans h3
  · intro v hft hfT0
    have h1T : lookupArg (coalesce "directory" "folder" a) "fileType" = some v :=
      (lookupArg_coalesce_other (by decide) (by decide)).trans hfT0
    have h1t : lookupArg (coalesce "directory" "folder" a) "file_type" = none :=
      lookupArg_coalesce_of_absent (by decide) hft
    have h2T : lookupArg (coalesce "directory" "folder_path"
        (coalesce "directory" "folder" a)) "fileType" = some v :=
      (lookupArg_coalesce_other (by decide) (by decide)).trans h1T
    have h2t : lookupArg (coalesce "directory" "folder_path"
        (coalesce "directory" "folder" a)) "file_type" = none :=
      lookupArg_coalesce_of_absent (by decide) h1t
    have h3T : lookupArg (coalesce "directory" "path"
        (coalesce "directory" "folder_path" (coalesce "directory" "folder" a)))
        "fileType" = some v :=
      (lookupArg_coalesce_other (by decide) (by decide)).trans h2T
    have h3t : lookupArg (coalesce "directory" "path"
        (coalesce "directory" "folder_path" (coalesce "directory" "folder" a)))
        "file_type" = none :=
      lookupArg_coalesce_of_absent (by decide) h2t
    exact lookupArg_coalesce_promote (by decide) h3T h3t
  · show coalesce "file_type" "fileType"
      (coalesce "directory" "path"
        (coalesce "directory" "folder_path"
          (coalesce "directory" "folder" (normalizeArgs a)))) = normalizeArgs a
    rw [coalesce_of_absent hfold4, coalesce_of_absent hfp3,
      coalesce_of_absent hpath2, coalesce_of_absent hfT]

/-- Witness for C3 at a concrete argument dict containing only the aliases
`folder` and `fileType`. -/
theorem c3_alias_normalization_witness :
    lookupArg (normalizeArgs [("folder", JValue.jstr "docs"),
      ("fileType", JValue.jstr "files")]) "directory" = some (JValue.jstr "docs") ∧
    lookupArg (normalizeArgs [("folder", JValue.jstr "docs"),
      ("fileType", JValue.jstr "files")]) "folder" = none ∧
    lookupArg (normalizeArgs [("folder", JValue.jstr "docs"),
      ("fileType", JValue.jstr "files")]) "file_type" = some (JValue.jstr "files") ∧
    normalizeArgs (normalizeArgs [("folder", JValue.jstr "docs"),
      ("fileType", JValue.jstr "files")]) =
      normalizeArgs [("folder", JValue.jstr "docs"), ("fileType", JValue.jstr "files")] := by
  have h := c3_alias_normalization
    [("folder", JValue.jstr "docs"), ("fileType", JValue.jstr "files")]
  exact ⟨h.2.1 _ rfl rfl, h.2.2.1, h.2.2.2.1 _ rfl rfl, h.2.2.2.2⟩

/-!
Lemmas about dispatch and the tool loop.
-/

theorem findSession_eq_none {sessions : List (String × Session)} {nm : String}
    (h : ∀ p ∈ sessions, nm ∉ p.2.tools) : findSession sessions nm = none := by
  induction sessions with
  | nil => rfl
  | cons p rest ih =>
    obtain ⟨tag, s⟩ := p
    have hs : nm ∉ s.tools := h (tag, s) (List.mem_cons_self _ _)
    simp only [findSession, hs, if_false]
    exact ih (fun q hq => h q (List.mem_cons_of_mem _ hq))

theorem findSession_mem {sessions : List (String × Session)} {nm : String} {s : Session}
    (h : findSession sessions nm = some s) : ∃ tag, (tag, s) ∈ sessions := by
  induction sessions with
  | nil => simp [findSession] at h
  | cons p rest ih =>
    obtain ⟨tag, s2⟩ := p
    by_cases hmem : nm ∈ s2.tools
    · simp only [findSession, hmem, if_true, Option.some.injEq] at h
      exact ⟨tag, by simp [h]⟩
    · simp only [findSession, hmem, if_false] at h
      obtain ⟨tag2, hin⟩ := ih h
      exact ⟨tag2, List.mem_cons_of_mem _ hin⟩

theorem findSession_first_wins {nm : String} (pre : List (String × Session))
    (tag : String) (s : Session) (post : List (String × Session))
    (hpre : ∀ q ∈ pre, nm ∉ q.2.tools) (hs : nm ∈ s.tools) :
    findSession (pre ++ (tag, s) :: post) nm = some s := by
  induction pre with
  | nil => simp [findSession, hs]
  | cons q rest ih =>
    obtain ⟨tag2, s2⟩ := q
    have hq : nm ∉ s2.tools := hpre (tag2, s2) (List.mem_cons_self _ _)
    simp only [List.cons_append, findSession, hq, if_false]
    exact ih (fun q2 hq2 => hpre q2 (List.mem_cons_of_mem _ hq2))

theorem processCall_ok_shape {sessions : List (String × Session)} {c : ToolCall}
    {t : Turn} (h : processCall sessions c = Except.ok t) :
    ∃ v, t = Turn.tool c.id v := by
  unfold processCall at h
  cases hf : findSession sessions c.name with
  | none =>
    rw [hf] at h
    exact ⟨notFoundPayload c.name, (Except.ok.injEq _ _ ▸ h.symm)⟩
  | some s =>
    rw [hf] at h
    dsimp only at h
    cases hc : s.callTool c.name (normalizeArgs c.args) with
    | ok v =>
      rw [hc] at h
      simp only [Except.ok.injEq] at h
      exact ⟨v, h.symm⟩
    | error e => rw [hc] at h; cases h

theorem processCall_not_found {sessions : List (String × Session)} {c : ToolCall}
    (h : ∀ p ∈ sessions, c.name ∉ p.2.tools) :
    processCall sessions c = Except.ok (Turn.tool c.id (notFoundPayload c.name)) := by
  unfold processCall
  rw [findSession_eq_none h]

theorem processCall_total {sessions : List (String × Session)} (c : ToolCall)
    (htot : ∀ p ∈ sessions, ∀ nm args, ∃ v, p.2.callTool nm args = Except.ok v) :
    ∃ t, processCall sessions c = Except.ok t := by
  unfold processCall
  cases hf : findSession sessions c.name with
  | none => exact ⟨_, rfl⟩
  | some s =>
    obtain ⟨tag, hmem⟩ := findSession_mem hf
    obtain ⟨v, hv⟩ := htot (tag, s) hmem c.name (normalizeArgs c.args)
    dsimp only
    rw [hv]
    exact ⟨_, rfl⟩

theorem runCalls_ok_spec {sessions : List (String × Session)} :
    ∀ (calls : List ToolCall) (hist hist2 : List Turn),
    runCalls sessions calls hist = Except.ok hist2 →
    ∃ ts, hist2 = hist ++ ts ∧
      ts.length = calls.length ∧
      List.Forall₂ (fun (c : ToolCall) (t : Turn) => ∃ v, t = Turn.tool c.id v) calls ts := by
  intro calls
  induction calls with
  | nil =>
    intro hist hist2 h
    simp only [runCalls, Except.ok.injEq] at h
    exact ⟨[], by simp [h], by simp, List.Forall₂.nil⟩
  | cons c rest ih =>
    intro hist hist2 h
    unfold runCalls at h
    cases hp : processCall sessions c with
    | error e => rw [hp] at h; cases h
    | ok t =>
      rw [hp] at h
      obtain ⟨ts, hh, hlen, hall⟩ := ih (hist ++ [t]) hist2 h
      refine ⟨t :: ts, ?_, by simp [hlen], ?_⟩
      · simp [hh]
      · exact List.Forall₂.cons (processCall_ok_shape hp) hall

theorem runCalls_total {sessions : List (String × Session)}
    (htot : ∀ p ∈ sessions, ∀ nm args, ∃ v, p.2.callTool nm args = Except.ok v) :
    ∀ (calls : List ToolCall) (hist : List Turn),
    ∃ hist2, runCalls sessions calls hist = Except.ok hist2 := by
  intro calls
  induction calls with
  | nil => intro hist; exact ⟨hist, rfl⟩
  | cons c rest ih =>
    intro hist
    obtain ⟨t, ht⟩ := processCall_total c htot
    obtain ⟨hist2, hh⟩ := ih (hist ++ [t])
    exact ⟨hist2, by simp only [runCalls, ht]; exact hh⟩

theorem handleSteps_content {oracle : Nat → List Turn → ModelMsg}
    {sessions : List (String × Session)} {r stepIdx : Nat} {hist : List Turn}
    (hcalls : effectiveCalls (oracle stepIdx hist) = [])
    (hcontent : (oracle stepIdx hist).content ≠ "") :
    handleSteps oracle sessions (r + 1) stepIdx hist =
      Except.ok ((oracle stepIdx hist).content,
        hist ++ [Turn.assistant (oracle stepIdx hist)]) := by
  simp [handleSteps, hcalls, hcontent]

theorem handleSteps_continue {oracle : Nat → List Turn → ModelMsg}
    {sessions : List (String × Session)} {r stepIdx : Nat} {hist : List Turn}
    (hcalls : effectiveCalls (oracle stepIdx hist) = [])
    (hcontent : (oracle stepIdx hist).content = "") :
    handleSteps oracle sessions (r + 1) stepIdx hist =
      handleSteps oracle sessions r (stepIdx + 1)
        (hist ++ [Turn.assistant (oracle stepIdx hist)]) := by
  simp [handleSteps, hcalls, hcontent]

theorem handleSteps_calls {oracle : Nat → List Turn → ModelMsg}
    {sessions : List (String × Session)} {r stepIdx : Nat} {hist : List Turn}
    (hne : effectiveCalls (oracle stepIdx hist) ≠ []) :
    handleSteps oracle sessions (r + 1) stepIdx hist =
      match runCalls sessions (effectiveCalls (oracle stepIdx hist))
          (hist ++ [Turn.assistant (oracle stepIdx hist)]) with
      | Except.error e => Except.error e
      | Except.ok hist3 => handleSteps oracle sessions r (stepIdx + 1) hist3 := by
  have hie : (effectiveCalls (oracle stepIdx hist)).isEmpty = false := by
    cases hc : effectiveCalls (oracle stepIdx hist) with
    | nil => exact absurd hc hne
    | cons c cs => rfl
  simp [handleSteps, hie]

theorem roundTrips_le (oracle : Nat → List Turn → ModelMsg)
    (sessions : List (String × Session)) :
    ∀ (r stepIdx : Nat) (hist : List Turn),
      roundTrips oracle sessions r stepIdx hist ≤ r := by
  intro r
  induction r with
  | zero => intro stepIdx hist; simp [roundTrips]
  | succ n ih =>
    intro stepIdx hist
    simp only [roundTrips]
    split
    · split
      · have h := ih (stepIdx + 1) (hist ++ [Turn.assistant (oracle stepIdx hist)])
        omega
      · omega
    · split
      · omega
      · rename_i hist3 heq
        have h := ih (stepIdx + 1) hist3
        omega

theorem handleSteps_always_calls_fallback
    {oracle : Nat → List Turn → ModelMsg} {sessions : List (String × Session)}
    (hcalls : ∀ (n : Nat) (h : List Turn), effectiveCalls (oracle n h) ≠ [])
    (htot : ∀ p ∈ sessions, ∀ (nm : String) (args : Args),
      ∃ v, p.2.callTool nm args = Except.ok v) :
    ∀ (r stepIdx : Nat) (hist : List Turn),
      ∃ hist2, handleSteps oracle sessions r stepIdx hist =
        Except.ok (fallbackMessage, hist2) := by
  intro r
  induction r with
  | zero => intro stepIdx hist; exact ⟨hist, rfl⟩
  | succ n ih =>
    intro stepIdx hist
    rw [handleSteps_calls (hcalls stepIdx hist)]
    obtain ⟨hist3, h3⟩ := runCalls_total htot (effectiveCalls (oracle stepIdx hist))
      (hist ++ [Turn.assistant (oracle stepIdx hist)])
    rw [h3]
    exact ih (stepIdx + 1) hist3

theorem handleSteps_always_calls_result
    {oracle : Nat → List Turn → ModelMsg} {sessions : List (String × Session)}
    (hcalls : ∀ (n : Nat) (h : List Turn), effectiveCalls (oracle n h) ≠ []) :
    ∀ (r stepIdx : Nat) (hist : List Turn) (res : String) (hist2 : List Turn),
      handleSteps oracle sessions r stepIdx hist = Except.ok (res, hist2) →
      res = fallbackMessage := by
  intro r
  induction r with
  | zero =>
    intro stepIdx hist res hist2 h
    simp only [handleSteps, Except.ok.injEq, Prod.mk.injEq] at h
    exact h.1.symm
  | succ n ih =>
    intro stepIdx hist res hist2 h
    rw [handleSteps_calls (hcalls stepIdx hist)] at h
    cases hr : runCalls sessions (effectiveCalls (oracle stepIdx hist))
        (hist ++ [Turn.assistant (oracle stepIdx hist)]) with
    | error e => rw [hr] at h; cases h
    | ok hist3 => rw [hr] at h; exact ih (stepIdx + 1) hist3 res hist2 h

/-- C1: one call to `Assistant.handle` performs at most `MAX_STEPS` model
round-trips for every model behavior and every backend set; `MAX_STEPS`
defaults to 10, inside the 5-10 range; for a model that always requests
operations and never returns final content, every normal return carries the
fixed fallback message, and with backends that return normally the call
does return the fallback message (the loop terminates by construction: the
embedded loop is a total function). -/
theorem c1_loop_bounded_with_fallback :
    (5 ≤ Assistant.MAX_STEPS ∧ Assistant.MAX_STEPS ≤ 10) ∧
    (∀ (oracle : Nat → List Turn → ModelMsg) (sessions : List (String × Session))
      (hist0 : List Turn) (prompt : String),
      roundTrips oracle sessions Assistant.MAX_STEPS 0 (hist0 ++ [Turn.user prompt]) ≤
        Assistant.MAX_STEPS) ∧
    (∀ (oracle : Nat → List Turn → ModelMsg) (sessions : List (String × Session))
      (hist0 : List Turn) (prompt : String),
      (∀ (n : Nat) (h : List Turn), effectiveCalls (oracle n h) ≠ []) →
      ∀ (res : String) (hist2 : List Turn),
        handle oracle sessions hist0 prompt = Except.ok (res, hist2) →
        res = fallbackMessage) ∧
    (∀ (oracle : Nat → List Turn → ModelMsg) (sessions : List (String × Session))
      (hist0 : List Turn) (prompt : String),
      (∀ (n : Nat) (h : List Turn), effectiveCalls (oracle n h) ≠ []) →
      (∀ p ∈ sessions, ∀ (nm : String) (args : Args),
        ∃ v, p.2.callTool nm args = Except.ok v) →
      ∃ hist2, handle oracle sessions hist0 prompt =
        Except.ok (fallbackMessage, hist2)) := by
  refine ⟨⟨by decide, by decide⟩, ?_, ?_, ?_⟩
  · intro oracle sessions hist0 prompt
    exact roundTrips_le oracle sessions Assistant.MAX_STEPS 0 _
  · intro oracle sessions hist0 prompt hcalls res hist2 h
    exact handleSteps_always_calls_result hcalls Assistant.MAX_STEPS 0 _ res hist2 h
  · intro oracle sessions hist0 prompt hcalls htot
    exact handleSteps_always_calls_fallback hcalls htot Assistant.MAX_STEPS 0 _

/-- Witness for C1: the always-requesting model with no backends reaches the
fallback message. -/
theorem c1_witness :
    (∀ (n : Nat) (h : List Turn), effectiveCalls (oracleUnknown n h) ≠ []) ∧
    ∃ hist2, handle oracleUnknown [] [] "hello" =
      Except.ok (fallbackMessage, hist2) := by
  have hcalls : ∀ (n : Nat) (h : List Turn), effectiveCalls (oracleUnknown n h) ≠ [] := by
    intro n h hcon
    simp [oracleUnknown, msgCallUnknown, effectiveCalls] at hcon
  exact ⟨hcalls,
    c1_loop_bounded_with_fallback.2.2.2 oracleUnknown [] [] "hello" hcalls (by simp)⟩

/-- Counterexample for C2: a backend invocation that raises propagates its
exception out of `Assistant.handle`; no tool-result turn of shape
`\x7berror: "tool execution error: ..."\x7d` is produced. -/
theorem c2_counterexample :
    handle oracleBoom [("local", sessBoom)] [] "delete the archive" =
      Except.error "backend exploded" := rfl

/-- C2 as amended: if the owning backend invocation raises, the exception
propagates uncaught out of `Assistant.handle` (there is no try/except around
`sess.call_tool` in src/main.py:275), so no tool-result turn is appended for
that request and the loop is terminated by the fault. -/
theorem c2_backend_exception_propagates
    (oracle : Nat → List Turn → ModelMsg) (sessions : List (String × Session))
    (hist0 : List Turn) (prompt : String) (c : ToolCall) (s : Session) (e : String)
    (hc : effectiveCalls (oracle 0 (hist0 ++ [Turn.user prompt])) = [c])
    (hs : findSession sessions c.name = some s)
    (he : s.callTool c.name (normalizeArgs c.args) = Except.error e) :
    handle oracle sessions hist0 prompt = Except.error e := by
  unfold handle
  show handleSteps oracle sessions (9 + 1) 0 (hist0 ++ [Turn.user prompt]) =
    Except.error e
  rw [handleSteps_calls (by rw [hc]; exact List.cons_ne_nil c []), hc]
  simp [runCalls, processCall, hs, he]

/-- Witness for the amended C2. -/
theorem c2_witness :
    handle oracleBoom [("local", sessBoom)] [] "hi" =
      Except.error "backend exploded" :=
  c2_backend_exception_propagates oracleBoom [("local", sessBoom)] [] "hi"
    callBoom sessBoom "backend exploded" rfl rfl rfl

/-- C4: an operation request whose name no registered session exposes never
raises: the step appends exactly one tool-result turn carrying the payload
`\x7berror: "tool '<name>' not found"\x7d` and the loop continues with the next
model query. -/
theorem c4_unknown_tool
    (oracle : Nat → List Turn → ModelMsg) (sessions : List (String × Session))
    (r stepIdx : Nat) (hist : List Turn) (c : ToolCall)
    (hc : effectiveCalls (oracle stepIdx hist) = [c])
    (hn : ∀ p ∈ sessions, c.name ∉ p.2.tools) :
    handleSteps oracle sessions (r + 1) stepIdx hist =
      handleSteps oracle sessions r (stepIdx + 1)
        (hist ++ [Turn.assistant (oracle stepIdx hist),
          Turn.tool c.id (notFoundPayload c.name)]) := by
  rw [handleSteps_calls (by rw [hc]; exact List.cons_ne_nil c []), hc]
  have hp := processCall_not_found hn
  simp [runCalls, hp]

/-- Witness for C4 at a concrete unknown operation name. -/
theorem c4_witness :
    handleSteps oracleUnknown [] 1 0 [] =
      handleSteps oracleUnknown [] 0 1
        [Turn.assistant msgCallUnknown,
          Turn.tool "call_1" (notFoundPayload "mystery_op")] :=
  c4_unknown_tool oracleUnknown [] 0 0 [] callUnknown rfl (by simp)

/-- Counterexample for C7: a batch of two operation requests whose first
backend invocation raises never completes; the step aborts with the
exception, so the history never receives the two tool-result turns the
claim promises. -/
theorem c7_counterexample :
    runCalls [("srv", sessTwo)] [callB2, callF2] [] =
      Except.error "boom2 failed" := rfl

/-- C7 as amended: whenever the batch of N operation requests of one loop
step completes (no backend invocation raises), the step continues the loop
with a history extended by exactly N tool-result turns, in request order,
each carrying the correlation id of its request. -/
theorem c7_batch_invariant
    (oracle : Nat → List Turn → ModelMsg) (sessions : List (String × Session))
    (r stepIdx : Nat) (hist hist3 : List Turn)
    (hne : effectiveCalls (oracle stepIdx hist) ≠ [])
    (hok : runCalls sessions (effectiveCalls (oracle stepIdx hist))
      (hist ++ [Turn.assistant (oracle stepIdx hist)]) = Except.ok hist3) :
    handleSteps oracle sessions (r + 1) stepIdx hist =
      handleSteps oracle sessions r (stepIdx + 1) hist3 ∧
    ∃ ts, hist3 = hist ++ [Turn.assistant (oracle stepIdx hist)] ++ ts ∧
      ts.length = (effectiveCalls (oracle stepIdx hist)).length ∧
      List.Forall₂ (fun (c : ToolCall) (t : Turn) => ∃ v, t = Turn.tool c.id v)
        (effectiveCalls (oracle stepIdx hist)) ts := by
  constructor
  · rw [handleSteps_calls hne, hok]
  · obtain ⟨ts, hh, hlen, hall⟩ := runCalls_ok_spec _ _ _ hok
    exact ⟨ts, hh, hlen, hall⟩

/-- Witness for the amended C7: a two-request batch appends two correlated
tool-result turns in order. -/
theorem c7_witness :
    handleSteps oracleGood [("srv", sessGood)] 1 0 [] =
      handleSteps oracleGood [("srv", sessGood)] 0 1
        [Turn.assistant msgGood, Turn.tool "id_1" (JValue.jstr "alpha_op"),
          Turn.tool "id_2" (JValue.jstr "beta_op")] ∧
    ∃ ts, [Turn.assistant msgGood, Turn.tool "id_1" (JValue.jstr "alpha_op"),
        Turn.tool "id_2" (JValue.jstr "beta_op")] =
      [] ++ [Turn.assistant (oracleGood 0 [])] ++ ts ∧
      ts.length = (effectiveCalls (oracleGood 0 [])).length ∧
      List.Forall₂ (fun (c : ToolCall) (t : Turn) => ∃ v, t = Turn.tool c.id v)
        (effectiveCalls (oracleGood 0 [])) ts :=
  c7_batch_invariant oracleGood [("srv", sessGood)] 0 0 []
    [Turn.assistant msgGood, Turn.tool "id_1" (JValue.jstr "alpha_op"),
      Turn.tool "id_2" (JValue.jstr "beta_op")]
    (by simp [oracleGood, msgGood, effectiveCalls]) rfl

/-- C8: a step whose model response carries no operation requests and
non-empty content returns exactly that content; a step whose response
carries operation requests never returns a user-visible value in that step
(its outcome is the continuation of the loop, or the propagated exception),
whatever its text content. -/
theorem c8_return_value
    (oracle : Nat → List Turn → ModelMsg) (sessions : List (String × Session))
    (r stepIdx : Nat) (hist : List Turn) :
    (effectiveCalls (oracle stepIdx hist) = [] → (oracle stepIdx hist).content ≠ "" →
      handleSteps oracle sessions (r + 1) stepIdx hist =
        Except.ok ((oracle stepIdx hist).content,
          hist ++ [Turn.assistant (oracle stepIdx hist)])) ∧
    (effectiveCalls (oracle stepIdx hist) ≠ [] →
      handleSteps oracle sessions (r + 1) stepIdx hist =
        match runCalls sessions (effectiveCalls (oracle stepIdx hist))
            (hist ++ [Turn.assistant (oracle stepIdx hist)]) with
        | Except.error e => Except.error e
        | Except.ok hist3 => handleSteps oracle sessions r (stepIdx + 1) hist3) :=
  ⟨fun h1 h2 => handleSteps_content h1 h2, fun hne => handleSteps_calls hne⟩

/-- Witness for C8: a no-request response with content `"done"` is returned
verbatim. -/
theorem c8_witness :
    handleSteps oracleFinal [] 1 0 [] =
      Except.ok ("done", [Turn.assistant msgFinal]) :=
  (c8_return_value oracleFinal [] 0 0 []).1 rfl (by decide)

/-!
Startup, catalog aggregation, configuration and path handling: lemmas and
claim theorems.
-/

theorem start_servers_ok_iff :
    ∀ cmds : List (String × SpawnOutcome),
      (∃ r, start_servers cmds = Except.ok r) ↔
      (∀ p ∈ cmds, ∃ b, p.2 = Except.ok b) := by
  intro cmds
  induction cmds with
  | nil =>
    constructor
    · intro _ p hp
      simp at hp
    · intro _
      exact ⟨([], []), rfl⟩
  | cons hd rest ih =>
    obtain ⟨tag, outcome⟩ := hd
    cases outcome with
    | error e =>
      constructor
      · rintro ⟨r, hr⟩
        cases hr
      · intro hall
        obtain ⟨b, hb⟩ := hall (tag, Except.error e) (List.mem_cons_self _ _)
        cases hb
    | ok b =>
      obtain ⟨sess, ts⟩ := b
      constructor
      · rintro ⟨r, hr⟩ p hp
        rcases List.mem_cons.mp hp with hp1 | hp2
        · subst hp1
          exact ⟨(sess, ts), rfl⟩
        · unfold start_servers at hr
          cases hrest : start_servers rest with
          | error e2 => rw [hrest] at hr; cases hr
          | ok r2 => exact ih.mp ⟨r2, hrest⟩ p hp2
      · intro hall
        have hrest : ∀ p ∈ rest, ∃ b2, p.2 = Except.ok b2 :=
          fun p hp => hall p (List.mem_cons_of_mem _ hp)
        obtain ⟨⟨ss, sch⟩, hr⟩ := ih.mpr hrest
        refine ⟨((tag, sess) :: ss, ts.map toRawSchema ++ sch), ?_⟩
        unfold start_servers
        rw [hr]

/-- Counterexample for C5: when the second backend fails to spawn, the whole
startup aborts with that exception; the already-started first backend is not
returned in a degraded session. -/
theorem c5_counterexample :
    start_servers [("local", Except.ok (sessLF, [])),
      ("gdrive", Except.error "spawn failed")] =
      Except.error "spawn failed" := rfl

/-- C5 as amended: `start_servers` is fail-fast, not degraded-but-live: it
returns a session at all exactly when every enumerated backend spawns and
handshakes successfully; any single failure closes the exit stack and
re-raises, aborting the whole startup.  (Only the Synology backend is
excluded gracefully, by the pre-startup `_synology_works` probe, before
`start_servers` runs; see the C9 theorem.) -/
theorem c5_startup_fail_fast :
    ∀ cmds : List (String × SpawnOutcome),
      (∃ r, start_servers cmds = Except.ok r) ↔
      (∀ p ∈ cmds, ∃ b, p.2 = Except.ok b) :=
  start_servers_ok_iff

/-- Witness for C5 as amended: a single-backend startup with a working
backend succeeds. -/
theorem c5_witness :
    ∃ r, start_servers [("local", Except.ok (sessLF, []))] = Except.ok r :=
  (c5_startup_fail_fast [("local", Except.ok (sessLF, []))]).mpr
    (by intro p hp; simp at hp; simp [hp])

theorem countP_flatten {α : Type} (p : α → Bool) :
    ∀ l : List (List α), (l.flatten.countP p) = (l.map (fun xs => xs.countP p)).sum := by
  intro l
  induction l with
  | nil => simp
  | cons xs rest ih => simp [List.countP_append, ih]

theorem collectToolSchemas_countP (nm : String) :
    ∀ backends : List (List ToolSpec),
      (collectToolSchemas backends).countP (fun s => s.name == nm) =
        (backends.map (fun b => b.countP (fun t => t.name == nm))).sum := by
  intro backends
  unfold collectToolSchemas
  rw [countP_flatten, List.map_map]
  congr 1
  apply List.map_congr_left
  intro b _
  show (b.map toRawSchema).countP (fun s => s.name == nm) =
    b.countP (fun t => t.name == nm)
  rw [List.countP_map]
  rfl

/-- Counterexample for C6: two backends both advertising `list_files` yield a
catalog with two entries for that name (both in the raw schema list and in
the wrapped tool list handed to the model), not exactly one. -/
theorem c6_counterexample :
    (collectToolSchemas [[toolLF1], [toolLF2]]).countP
      (fun s => s.name == "list_files") = 2 ∧
    (wrap_tool_schemas (collectToolSchemas [[toolLF1], [toolLF2]])).countP
      (fun w => w.fname == "list_files") = 2 := ⟨rfl, rfl⟩

/-- C6 as amended: the aggregated catalog keeps one entry per advertising
backend (duplicates are not deduplicated, so the model sees every one of
them), wrapping preserves that multiplicity, and dispatch resolves a name
to the first-registered session that exposes it. -/
theorem c6_duplicates_kept_first_wins :
    (∀ (backends : List (List ToolSpec)) (nm : String),
      (collectToolSchemas backends).countP (fun s => s.name == nm) =
        (backends.map (fun b => b.countP (fun t => t.name == nm))).sum) ∧
    (∀ (raw : List RawSchema) (nm : String),
      (wrap_tool_schemas raw).countP (fun w => w.fname == nm) =
        raw.countP (fun s => s.name == nm)) ∧
    (∀ (pre : List (String × Session)) (tag : String) (s : Session)
      (post : List (String × Session)) (nm : String),
      (∀ q ∈ pre, nm ∉ q.2.tools) → nm ∈ s.tools →
      findSession (pre ++ (tag, s) :: post) nm = some s) := by
  refine ⟨fun backends nm => collectToolSchemas_countP nm backends, ?_, ?_⟩
  · intro raw nm
    unfold wrap_tool_schemas
    rw [List.countP_map]
    rfl
  · intro pre tag s post nm hpre hs
    exact findSession_first_wins pre tag s post hpre hs

/-- Witness for C6 as amended: dispatch routes `list_files` past a first
session that does not expose it to the first one that does. -/
theorem c6_witness :
    findSession [("local", sessBoom), ("gdrive", sessLF)] "list_files" =
      some sessLF :=
  c6_duplicates_kept_first_wins.2.2 [("local", sessBoom)] "gdrive" sessLF []
    "list_files" (by decide) (by decide)

/-- C9: `_synology_works()` returns `False` for every configuration value of
the `Settings` object (the access to the undeclared `settings.nas_secure`
attribute raises inside the try block and is swallowed), for every behavior
of the Synology client; consequently the `"syno"` entry is never added to
`SERVER_CMDS` and the Synology backend never participates in a session. -/
theorem c9_synology_never_enabled :
    ∀ (FS : Type) (s : Settings)
      (mk : Option String → Int → Option String → Option String → Bool →
        Except String FS)
      (gi : FS → Except String Unit),
      synology_works s mk gi = false ∧
      serverCmdTags s mk gi = ["local", "gdrive", "icloud"] ∧
      "syno" ∉ serverCmdTags s mk gi := by
  intro FS s mk gi
  have hw : synology_works s mk gi = false := by
    unfold synology_works synologyWorksTry
    cases hp : pyInt s.nas_port with
    | error e => simp [hp]
    | ok n => simp [hp, Settings.getattrNasSecure]
  have ht : serverCmdTags s mk gi = ["local", "gdrive", "icloud"] := by
    simp [serverCmdTags, hw]
  refine ⟨hw, ht, ?_⟩
  rw [ht]
  decide

/-- C10: in the local-filesystem backend, `_abs` resolves an absolute path
string to that path itself, with no confinement to the `HOME` root, so
`delete_file` and `move_file` act on paths outside the home directory when
given absolute arguments; only relative paths are anchored under `HOME`.
Shown concretely: the absolute path `/etc/passwd` resolves to itself, which
is not under the home directory. -/
theorem c10_abs_no_confinement :
    (∀ (home : List String) (p : PathStr), p.absolute = true → p.tilde = false →
      abspath home p = resolveComps [] p.comps ∧
      delete_file_target home p = resolveComps [] p.comps ∧
      move_file_targets home p p = (resolveComps [] p.comps, resolveComps [] p.comps)) ∧
    (∀ (home : List String) (p : PathStr), p.absolute = false → p.tilde = false →
      abspath home p = resolveComps [] (home ++ p.comps)) ∧
    (abspath ["home", "user"] ⟨false, true, ["etc", "passwd"]⟩ = ["etc", "passwd"] ∧
      (abspath ["home", "user"] ⟨false, true, ["etc", "passwd"]⟩).take 2 ≠
        ["home", "user"]) := by
  refine ⟨?_, ?_, rfl, by decide⟩
  · intro home p ha ht
    have he : expanduser home p = p := by simp [expanduser, ht]
    refine ⟨?_, ?_, ?_⟩
    · simp [abspath, he, ha]
    · simp [delete_file_target, abspath, he, ha]
    · simp [move_file_targets, abspath, he, ha]
  · intro home p ha ht
    simp [abspath, expanduser, ht, ha]

/-- Witness for C10 at the concrete absolute path `/etc/passwd`. -/
theorem c10_witness :
    abspath ["home", "user"] ⟨false, true, ["etc", "passwd"]⟩ =
      resolveComps [] ["etc", "passwd"] ∧
    delete_file_target ["home", "user"] ⟨false, true, ["etc", "passwd"]⟩ =
      resolveComps [] ["etc", "passwd"] := by
  have h := c10_abs_no_confinement.1 ["home", "user"]
    ⟨false, true, ["etc", "passwd"]⟩ rfl rfl
  exact ⟨h.1, h.2.1⟩

end FSAssistant
